import Mathlib

/-!
Shallow embedding of the task-broker in `task_queue.py` (module `task_queue`)
and of `ItemCandidate.update` in `matcher/model.py`, together with theorems
checking the design document's claims against this embedding.

The worker (`process_queue`) is a single sequential loop in the source
(one gevent greenlet), so its processing of a drained list of tasks is
modelled as a pure trace-producing function.  The broadcast publication
`queue_update` puts each message into every mailbox currently present in
the `sockets` registry; delivery is modelled by `deliver` over a stream of
register/deregister/publish events.  The connection handler `handle` is
modelled in two phases: `handle_pre` (first frame up to registration) and
`handle_drain` (the mailbox drain loop and the final done exchange).
-/

namespace TaskQueue

/-- Client address (the source keys mailboxes by socket address). -/
abbrev Addr := Nat

/-- One unit of work: `chunk['filename']` and the optional `chunk.get('oql')`. -/
structure Chunk where
  filename : String
  oql : Option String
deriving Repr, DecidableEq

/-- Truthiness of `oql` in `if not oql: continue`: absent or empty query text
is falsy, any nonempty string is truthy. -/
def chunkHasOql (c : Chunk) : Bool :=
  match c.oql with
  | none => false
  | some s => !s.isEmpty

/-- One submitted task, as the dict put on `task_queue` by `handle`. -/
structure Task where
  place : String
  address : Addr
  chunks : List Chunk
deriving Repr, DecidableEq

/-- Reply of `overpass.get_status()`: a dict with a `slots` list. -/
structure OverpassStatus where
  slots : List Int
deriving Repr, DecidableEq

/-- Messages published through `queue_update` (the `type` field is the
constructor; `num`, `filename`, `place` are the payload fields). -/
inductive Msg where
  | status (wait : Int)
  | runQuery (num : Nat) (filename place : String)
  | chunk (num : Nat) (filename place : String)
deriving Repr, DecidableEq

/-- Observable events of the worker loop. `oracle` is one call of
`overpass.get_status()`, `publish` is one `queue_update` broadcast,
`sleepFor` is the gevent sleep, `fetch` is `overpass.run_query(oql)`,
`store` is the cache file write, `sub` is `chunk_count.sub(1)`, and
`signalDone` is `item['queue'].put(None)`. -/
inductive Ev where
  | oracle
  | publish (m : Msg)
  | sleepFor (secs : Int)
  | fetch (oql : String)
  | store (filename : String)
  | sub
  | signalDone (address : Addr)
deriving Repr, DecidableEq

/-- Worker-side state threaded through the loop: the cache (which paths
exist on disk) and how many oracle calls have been made so far (the next
call reads the oracle stream at this index). -/
structure WState where
  cache : String → Bool
  calls : Nat

/-- Model of `wait_for_slot`: one `get_status` call; if `slots` is empty or
the first entry is nonpositive, return at once; otherwise broadcast a
`status` message with the wait and sleep for it.  The source has no loop
here: after the sleep it simply returns. -/
def wait_for_slot (oracle : Nat → OverpassStatus) (s : WState) : List Ev × WState :=
  let st := oracle s.calls
  let s1 : WState := { s with calls := s.calls + 1 }
  match st.slots with
  | [] => ([Ev.oracle], s1)
  | secs :: _ =>
    if secs ≤ 0 then ([Ev.oracle], s1)
    else ([Ev.oracle, Ev.publish (Msg.status secs), Ev.sleepFor secs], s1)

/-- Model of one iteration of the chunk loop in `process_queue`.  A chunk
with falsy `oql` is skipped entirely (`continue`): no cache check, no
counter decrement, no message.  Otherwise, on a cache miss the worker waits
for a slot, broadcasts `run_query`, fetches and stores; in either case it
then decrements the counter and broadcasts the `chunk` message. -/
def process_chunk (oracle : Nat → OverpassStatus) (place : String)
    (num : Nat) (chunk : Chunk) (s : WState) : List Ev × WState :=
  if chunkHasOql chunk then
    let filename := "overpass/" ++ chunk.filename
    let oql := chunk.oql.getD ""
    let msg := Msg.chunk num chunk.filename place
    if s.cache filename then
      ([Ev.sub, Ev.publish msg], s)
    else
      let ws := wait_for_slot oracle s
      let s2 : WState :=
        { ws.2 with cache := fun f => if f = filename then true else ws.2.cache f }
      (ws.1 ++ [Ev.publish (Msg.runQuery num chunk.filename place),
                Ev.fetch oql, Ev.store filename, Ev.sub, Ev.publish msg], s2)
  else ([], s)

/-- The chunk loop over `enumerate(item['chunks'])`, already paired with
positions. -/
def process_chunks (oracle : Nat → OverpassStatus) (place : String) :
    List (Nat × Chunk) → WState → List Ev × WState
  | [], s => ([], s)
  | (num, c) :: rest, s =>
    let r1 := process_chunk oracle place num c s
    let r2 := process_chunks oracle place rest r1.2
    (r1.1 ++ r2.1, r2.2)

/-- Model of the body of `process_queue` for one dequeued task: run the
chunk loop, then put the `None` sentinel on the task's private queue. -/
def process_task (oracle : Nat → OverpassStatus) (item : Task) (s : WState) :
    List Ev × WState :=
  let r := process_chunks oracle item.place item.chunks.enum s
  (r.1 ++ [Ev.signalDone item.address], r.2)

/-- Model of the worker draining a FIFO list of tasks, one at a time, in
order; each event is tagged with the index of the task it belongs to. -/
def process_queue (oracle : Nat → OverpassStatus) :
    List Task → Nat → WState → List (Nat × Ev) × WState
  | [], _, s => ([], s)
  | t :: ts, i, s =>
    let r1 := process_task oracle t s
    let r2 := process_queue oracle ts (i + 1) r1.2
    (r1.1.map (fun e => (i, e)) ++ r2.1, r2.2)

/-- Messages broadcast through `queue_update` in a worker trace. -/
def publishedMsgs (tr : List Ev) : List Msg :=
  tr.filterMap fun e =>
    match e with
    | Ev.publish m => some m
    | _ => none

/-- Number of `get_status` calls in a worker trace. -/
def oracleCount (tr : List Ev) : Nat :=
  (tr.filter fun e =>
    match e with
    | Ev.oracle => true
    | _ => false).length

/-- Number of `chunk_count.sub(1)` calls in a worker trace. -/
def subCount (tr : List Ev) : Nat :=
  (tr.filter fun e =>
    match e with
    | Ev.sub => true
    | _ => false).length

/-- Keep only `chunk` completion messages. -/
def chunkMsgs (ms : List Msg) : List Msg :=
  ms.filter fun m =>
    match m with
    | Msg.chunk _ _ _ => true
    | _ => false

/-- Keep only `run_query` messages. -/
def runQueryMsgs (ms : List Msg) : List Msg :=
  ms.filter fun m =>
    match m with
    | Msg.runQuery _ _ _ => true
    | _ => false

/-- Whether a message is a `chunk` completion message. -/
def isChunkMsg (m : Msg) : Bool :=
  match m with
  | Msg.chunk _ _ _ => true
  | _ => false

/-- The `num` field of a published message (`status` messages carry no
`num`; zero is returned for them). -/
def msgNum : Msg → Nat
  | Msg.status _ => 0
  | Msg.runQuery n _ _ => n
  | Msg.chunk n _ _ => n

/-- Value of the global chunk counter after the handlers have added
`len(msg['chunks'])` for each submitted task and the worker has fully
drained them (each `Ev.sub` is one `chunk_count.sub(1)`). -/
def counter_after_drain (baseline : Int) (oracle : Nat → OverpassStatus)
    (tasks : List Task) (s : WState) : Int :=
  baseline + (tasks.map fun t => (t.chunks.length : Int)).sum
    - (subCount ((process_queue oracle tasks 0 s).1.map Prod.snd) : Int)

/-- System-level events for mailbox delivery: a `queue_update` broadcast, a
`sockets[address] = send_queue` registration, or a `del sockets[address]`
deregistration. -/
inductive SEv where
  | publish (m : Msg)
  | register (a : Addr)
  | deregister (a : Addr)
deriving Repr, DecidableEq

/-- Contents of address `a`'s mailbox after a stream of system events,
given whether `a` is currently in `sockets`.  This is the semantics of
`queue_update`: a broadcast reaches exactly the mailboxes registered at
the moment of publication. -/
def deliver (a : Addr) : List SEv → Bool → List Msg
  | [], _ => []
  | SEv.publish m :: rest, true => m :: deliver a rest true
  | SEv.publish _ :: rest, false => deliver a rest false
  | SEv.register b :: rest, r => deliver a rest (r || a == b)
  | SEv.deregister b :: rest, r => deliver a rest (if a = b then false else r)

/-- First inbound frame as seen by `handle`: either the JSON parse fails,
or it yields a message with optional `type`, `place` and `chunks` fields. -/
structure InMsg where
  type : Option String
  place : Option String
  chunks : Option (List Chunk)
deriving Repr, DecidableEq

/-- Result of reading and parsing the first frame. -/
inductive FirstRead where
  | parseFail
  | msg (m : InMsg)
deriving Repr, DecidableEq

/-- Uncaught exceptions that terminate the handler greenlet: `KeyError`
from a missing submission field, `AssertionError` from a non-`ack` reply,
`BrokenPipeError` escaping the final done exchange, and the OS error from
writing on a socket already closed by the except branch. -/
inductive Crash where
  | keyError
  | assertError
  | brokenPipe
  | badFd
deriving Repr, DecidableEq

/-- Frames the handler writes to the socket. -/
inductive Frame where
  | invalidJsonErr
  | pong
  | connected (queuedChunks : Int)
  | payload (m : Msg)
  | doneMsg
deriving Repr, DecidableEq

/-- Outcome of the pre-drain phase of `handle`. -/
structure PreResult where
  frames : List Frame
  enqueued : Option Task
  counterAdd : Nat
  registered : Bool
  crash : Option Crash
deriving Repr, DecidableEq

/-- Model of `handle` from the first read up to registration.  A JSON
parse failure writes the plain string error and returns; a `ping` writes
`pong` and returns.  Otherwise the task dict is built: a missing `place`
or `chunks` key raises `KeyError` before anything is enqueued or written.
With both fields present the task is enqueued, the counter increased by
the chunk count, `connected` (carrying the counter value read before the
add) written, and the reply asserted to be `ack`; only after that ack is
the mailbox registered in `sockets`. -/
def handle_pre (address : Addr) (counterValue : Int) (fr : FirstRead)
    (reply : String) : PreResult :=
  match fr with
  | FirstRead.parseFail =>
    { frames := [Frame.invalidJsonErr], enqueued := none, counterAdd := 0,
      registered := false, crash := none }
  | FirstRead.msg m =>
    if m.type = some "ping" then
      { frames := [Frame.pong], enqueued := none, counterAdd := 0,
        registered := false, crash := none }
    else
      match m.place, m.chunks with
      | some place, some chunks =>
        if reply = "ack" then
          { frames := [Frame.connected counterValue],
            enqueued := some { place := place, address := address, chunks := chunks },
            counterAdd := chunks.length, registered := true, crash := none }
        else
          { frames := [Frame.connected counterValue],
            enqueued := some { place := place, address := address, chunks := chunks },
            counterAdd := chunks.length, registered := false,
            crash := some Crash.assertError }
      | _, _ =>
        { frames := [], enqueued := none, counterAdd := 0,
          registered := false, crash := some Crash.keyError }

/-- One write-then-read exchange on the socket: either the write succeeded
and the read returned the string `s`, or a `BrokenPipeError` interrupted
the exchange. -/
inductive IOStep where
  | reply (s : String)
  | broken
deriving Repr, DecidableEq

/-- Outcome of the drain phase of `handle`. -/
structure DrainResult where
  sentFrames : List Frame
  deregs : Nat
  crash : Option Crash
  cleanFinish : Bool
deriving Repr, DecidableEq

/-- Model of the drain loop of `handle` and the final done exchange.
`inbox` is the sequence of values popped from the mailbox (`none` is the
`None` sentinel, which is falsy and exits the loop); `script` gives the
outcome of each write-then-read exchange in order.  Inside the loop only
`BrokenPipeError` is caught: it closes the socket, deletes the mailbox
from `sockets` and breaks, after which the done write on the closed
socket raises an uncaught OS error.  A non-`ack` reply fails the bare
`assert`, so the handler dies without touching `sockets`.  On the
sentinel the handler writes `done`, requires one more `ack`, closes and
deregisters; a failure there is uncaught and skips the deregistration. -/
def handle_drain : List (Option Msg) → List IOStep → DrainResult
  | none :: _, IOStep.reply s :: _ =>
    if s = "ack" then
      { sentFrames := [Frame.doneMsg], deregs := 1, crash := none,
        cleanFinish := true }
    else
      { sentFrames := [Frame.doneMsg], deregs := 0,
        crash := some Crash.assertError, cleanFinish := false }
  | none :: _, IOStep.broken :: _ =>
    { sentFrames := [], deregs := 0, crash := some Crash.brokenPipe,
      cleanFinish := false }
  | some m :: inboxRest, IOStep.reply s :: scriptRest =>
    if s = "ack" then
      let r := handle_drain inboxRest scriptRest
      { r with sentFrames := Frame.payload m :: r.sentFrames }
    else
      { sentFrames := [Frame.payload m], deregs := 0,
        crash := some Crash.assertError, cleanFinish := false }
  | some _ :: _, IOStep.broken :: _ =>
    { sentFrames := [], deregs := 1, crash := some Crash.badFd,
      cleanFinish := false }
  | _, [] =>
    { sentFrames := [], deregs := 0, crash := none, cleanFinish := false }
  | [], _ =>
    { sentFrames := [], deregs := 0, crash := none, cleanFinish := false }

end TaskQueue

namespace Model

/-- Model of `ItemCandidate.update` in `matcher/model.py`: the candidate
mapping is iterated in order; the keys `osm_id` and `osm_type` are skipped
and every other entry is assigned onto the object with `setattr`.  The
object is modelled as a partial map from attribute names to values. -/
def ItemCandidate.update {V : Type} (self : String → Option V)
    (candidate : List (String × V)) : String → Option V :=
  candidate.foldl
    (fun s kv =>
      if kv.1 = "osm_id" ∨ kv.1 = "osm_type" then s
      else fun k => if k = kv.1 then some kv.2 else s k)
    self

end Model

namespace TaskQueue

theorem publishedMsgs_append (a b : List Ev) :
    publishedMsgs (a ++ b) = publishedMsgs a ++ publishedMsgs b := by
  simp [publishedMsgs]

theorem chunkMsgs_append (a b : List Msg) :
    chunkMsgs (a ++ b) = chunkMsgs a ++ chunkMsgs b := by
  simp [chunkMsgs]

theorem runQueryMsgs_append (a b : List Msg) :
    runQueryMsgs (a ++ b) = runQueryMsgs a ++ runQueryMsgs b := by
  simp [runQueryMsgs]

theorem subCount_append (a b : List Ev) :
    subCount (a ++ b) = subCount a + subCount b := by
  simp [subCount]

theorem oracleCount_append (a b : List Ev) :
    oracleCount (a ++ b) = oracleCount a + oracleCount b := by
  simp [oracleCount]

theorem chunkMsgs_process_chunk (oracle : Nat → OverpassStatus) (place : String)
    (num : Nat) (c : Chunk) (s : WState) :
    chunkMsgs (publishedMsgs (process_chunk oracle place num c s).1)
      = if chunkHasOql c then [Msg.chunk num c.filename place] else [] := by
  by_cases h : chunkHasOql c
  · by_cases hc : s.cache ("overpass/" ++ c.filename)
    · simp [process_chunk, h, hc, publishedMsgs, chunkMsgs]
    · cases hsl : (oracle s.calls).slots with
      | nil => simp [process_chunk, h, hc, wait_for_slot, hsl, publishedMsgs, chunkMsgs]
      | cons secs rest =>
        by_cases hs : secs ≤ 0 <;>
          simp [process_chunk, h, hc, wait_for_slot, hsl, hs, publishedMsgs, chunkMsgs]
  · simp [process_chunk, h, publishedMsgs, chunkMsgs]

theorem subCount_process_chunk (oracle : Nat → OverpassStatus) (place : String)
    (num : Nat) (c : Chunk) (s : WState) :
    subCount (process_chunk oracle place num c s).1
      = if chunkHasOql c then 1 else 0 := by
  by_cases h : chunkHasOql c
  · by_cases hc : s.cache ("overpass/" ++ c.filename)
    · simp [process_chunk, h, hc, subCount]
    · cases hsl : (oracle s.calls).slots with
      | nil => simp [process_chunk, h, hc, wait_for_slot, hsl, subCount]
      | cons secs rest =>
        by_cases hs : secs ≤ 0 <;>
          simp [process_chunk, h, hc, wait_for_slot, hsl, hs, subCount]
  · simp [process_chunk, h, subCount]

theorem chunkMsgs_process_chunks (oracle : Nat → OverpassStatus) (place : String) :
    ∀ (l : List (Nat × Chunk)) (s : WState),
      chunkMsgs (publishedMsgs (process_chunks oracle place l s).1)
        = (l.filter fun p => chunkHasOql p.2).map
            (fun p => Msg.chunk p.1 p.2.filename place)
  | [], _ => by simp [process_chunks, publishedMsgs, chunkMsgs]
  | (num, c) :: rest, s => by
    simp only [process_chunks, publishedMsgs_append, chunkMsgs_append,
      chunkMsgs_process_chunk, chunkMsgs_process_chunks oracle place rest]
    by_cases h : chunkHasOql c <;> simp [h, List.filter_cons]

theorem subCount_process_chunks (oracle : Nat → OverpassStatus) (place : String) :
    ∀ (l : List (Nat × Chunk)) (s : WState),
      subCount (process_chunks oracle place l s).1
        = (l.filter fun p => chunkHasOql p.2).length
  | [], _ => by simp [process_chunks, subCount]
  | (num, c) :: rest, s => by
    simp only [process_chunks, subCount_append, subCount_process_chunk,
      subCount_process_chunks oracle place rest]
    by_cases h : chunkHasOql c <;> simp [h, List.filter_cons, Nat.add_comm]

theorem mem_enumFrom_fst_ge {α : Type} :
    ∀ (n : Nat) (l : List α) (p : Nat × α), p ∈ List.enumFrom n l → n ≤ p.1
  | _, [], _, h => by simp [List.enumFrom] at h
  | n, a :: t, p, h => by
    simp only [List.enumFrom, List.mem_cons] at h
    cases h with
    | inl h => subst h; exact Nat.le_refl n
    | inr h => exact Nat.le_of_succ_le (mem_enumFrom_fst_ge (n + 1) t p h)

theorem mem_of_mem_enumFrom {α : Type} :
    ∀ (n : Nat) (l : List α) (p : Nat × α), p ∈ List.enumFrom n l → p.2 ∈ l
  | _, [], _, h => by simp [List.enumFrom] at h
  | n, a :: t, p, h => by
    simp only [List.enumFrom, List.mem_cons] at h
    cases h with
    | inl h => subst h; exact List.mem_cons_self a t
    | inr h => exact List.mem_cons_of_mem a (mem_of_mem_enumFrom (n + 1) t p h)

theorem list_pairwise_of_total {α : Type} {R : α → α → Prop} (h : ∀ a b, R a b) :
    ∀ l : List α, l.Pairwise R
  | [] => List.Pairwise.nil
  | a :: t => List.Pairwise.cons (fun b _ => h a b) (list_pairwise_of_total h t)

theorem pairwise_enumFrom_fst_lt {α : Type} :
    ∀ (n : Nat) (l : List α),
      (List.enumFrom n l).Pairwise (fun p q : Nat × α => p.1 < q.1)
  | _, [] => by simp [List.enumFrom]
  | n, a :: t => by
    simp only [List.enumFrom]
    refine List.Pairwise.cons ?_ (pairwise_enumFrom_fst_lt (n + 1) t)
    intro q hq
    exact Nat.lt_of_succ_le (mem_enumFrom_fst_ge (n + 1) t q hq)

/-- C1.  Counterexample to the claim as stated.  Two clients (addresses 1
and 2) are registered, each having submitted a one-chunk task; both cache
keys are on disk.  Because `queue_update` broadcasts to every registered
mailbox, the mailbox of address 1 receives the `chunk` message of the
other client's task as well: the delivered sequence has two entries for a
one-chunk task, includes an entry for a chunk of another task, and its
`num` values (0, 0) are not strictly increasing. -/
theorem C1_counterexample :
    deliver 1
      (SEv.register 1 :: SEv.register 2 ::
        (publishedMsgs
          ((process_queue (fun _ => OverpassStatus.mk [])
            [Task.mk "p" 1 [Chunk.mk "a" (some "Q1")],
             Task.mk "q" 2 [Chunk.mk "b" (some "Q2")]] 0
            (WState.mk (fun _ => true) 0)).1.map Prod.snd)).map SEv.publish)
      false
      = [Msg.chunk 0 "a" "p", Msg.chunk 0 "b" "q"] ∧
    (Task.mk "p" 1 [Chunk.mk "a" (some "Q1")]).chunks.length = 1 ∧
    ¬ ([Msg.chunk 0 "a" "p", Msg.chunk 0 "b" "q"].Pairwise
        fun m1 m2 => msgNum m1 < msgNum m2) := by
  refine ⟨by decide, by decide, by decide⟩

/-- C1 (amended).  For one task the worker publishes exactly one `chunk`
message per chunk with nonempty query text, in chunk order, so their `num`
values are strictly increasing; chunks with empty query text produce no
`chunk` message, and the messages are broadcast to every registered
mailbox rather than only to the submitting task's. -/
theorem C1_chunk_messages_amended (oracle : Nat → OverpassStatus) (t : Task)
    (s : WState) :
    chunkMsgs (publishedMsgs (process_task oracle t s).1)
      = (t.chunks.enum.filter fun p => chunkHasOql p.2).map
          (fun p => Msg.chunk p.1 p.2.filename t.place) ∧
    (chunkMsgs (publishedMsgs (process_task oracle t s).1)).Pairwise
      (fun m1 m2 => msgNum m1 < msgNum m2) := by
  have heq : chunkMsgs (publishedMsgs (process_task oracle t s).1)
      = (t.chunks.enum.filter fun p => chunkHasOql p.2).map
          (fun p => Msg.chunk p.1 p.2.filename t.place) := by
    unfold process_task
    rw [publishedMsgs_append, chunkMsgs_append, chunkMsgs_process_chunks]
    have h2 : chunkMsgs (publishedMsgs [Ev.signalDone t.address]) = [] := rfl
    rw [h2, List.append_nil]
  refine ⟨heq, ?_⟩
  rw [heq]
  refine List.pairwise_map.mpr ?_
  refine List.Pairwise.imp ?_
    (List.Pairwise.filter _ (pairwise_enumFrom_fst_lt 0 t.chunks))
  intro p q h
  simpa [msgNum] using h

/-- C2.  Counterexample to the claim as stated.  A task with one chunk
whose query text is absent produces a worker trace containing only the
completion sentinel: the `continue` in `process_queue` skips the counter
decrement and the `chunk` message, not just the oracle call and the
fetch. -/
theorem C2_counterexample :
    (process_task (fun _ => OverpassStatus.mk []) (Task.mk "p" 1 [Chunk.mk "a" none])
        (WState.mk (fun _ => false) 0)).1 = [Ev.signalDone 1] ∧
    subCount (process_task (fun _ => OverpassStatus.mk [])
        (Task.mk "p" 1 [Chunk.mk "a" none]) (WState.mk (fun _ => false) 0)).1 = 0 ∧
    chunkMsgs (publishedMsgs (process_task (fun _ => OverpassStatus.mk [])
        (Task.mk "p" 1 [Chunk.mk "a" none]) (WState.mk (fun _ => false) 0)).1) = [] := by
  refine ⟨by decide, by decide, by decide⟩

/-- C2 (amended).  A chunk with absent or empty query text is skipped
entirely: the worker performs no oracle call and no fetch, but it also
does not decrement the global chunk counter and does not publish a
`chunk` completion message for it — its loop iteration produces no events
at all and leaves the worker state unchanged. -/
theorem C2_skip_amended (oracle : Nat → OverpassStatus) (place : String)
    (num : Nat) (c : Chunk) (s : WState) (h : chunkHasOql c = false) :
    process_chunk oracle place num c s = ([], s) := by
  simp [process_chunk, h]

/-- C2 witness: the amended statement evaluated on a concrete chunk with
no query text. -/
theorem C2_witness :
    chunkHasOql (Chunk.mk "a" none) = false ∧
    process_chunk (fun _ => OverpassStatus.mk []) "p" 0 (Chunk.mk "a" none)
        (WState.mk (fun _ => false) 0)
      = ([], WState.mk (fun _ => false) 0) :=
  ⟨by decide, C2_skip_amended _ _ _ _ _ (by decide)⟩

/-- C3.  Counterexample to the claim as stated.  With the oracle reporting
a five-second wait and a cache miss, the worker trace contains exactly one
oracle call: after the sleep, `wait_for_slot` simply returns and the
worker publishes `run_query` without re-checking the oracle. -/
theorem C3_counterexample :
    (process_chunk (fun _ => OverpassStatus.mk [5]) "p" 0 (Chunk.mk "a" (some "Q"))
        (WState.mk (fun _ => false) 0)).1
      = [Ev.oracle, Ev.publish (Msg.status 5), Ev.sleepFor 5,
         Ev.publish (Msg.runQuery 0 "a" "p"), Ev.fetch "Q",
         Ev.store "overpass/a", Ev.sub, Ev.publish (Msg.chunk 0 "a" "p")] ∧
    oracleCount (process_chunk (fun _ => OverpassStatus.mk [5]) "p" 0
        (Chunk.mk "a" (some "Q")) (WState.mk (fun _ => false) 0)).1 = 1 := by
  refine ⟨by decide, by decide⟩

/-- C3 (amended).  When the oracle reports a positive wait for a
cache-miss chunk, the worker broadcasts `status` with the wait, sleeps for
that duration, and then publishes `run_query` and fetches directly,
without re-checking the oracle: the chunk's trace holds exactly one
oracle event. -/
theorem C3_no_recheck_amended (oracle : Nat → OverpassStatus) (place : String)
    (num : Nat) (c : Chunk) (s : WState) (q : String) (secs : Int)
    (rest : List Int) (hq : c.oql = some q) (hne : q.isEmpty = false)
    (hc : s.cache ("overpass/" ++ c.filename) = false)
    (hsl : (oracle s.calls).slots = secs :: rest) (hpos : 0 < secs) :
    (process_chunk oracle place num c s).1
      = [Ev.oracle, Ev.publish (Msg.status secs), Ev.sleepFor secs,
         Ev.publish (Msg.runQuery num c.filename place), Ev.fetch q,
         Ev.store ("overpass/" ++ c.filename), Ev.sub,
         Ev.publish (Msg.chunk num c.filename place)] := by
  have hh : chunkHasOql c = true := by simp [chunkHasOql, hq, hne]
  have hns : ¬ secs ≤ 0 := by omega
  simp [process_chunk, hh, hc, wait_for_slot, hsl, hns, hq]

/-- C3 witness: the amended statement evaluated at a concrete oracle
stream, chunk and state. -/
theorem C3_witness :
    (process_chunk (fun _ => OverpassStatus.mk [7]) "pl" 2 (Chunk.mk "f" (some "QQ"))
        (WState.mk (fun _ => false) 3)).1
      = [Ev.oracle, Ev.publish (Msg.status 7), Ev.sleepFor 7,
         Ev.publish (Msg.runQuery 2 "f" "pl"), Ev.fetch "QQ",
         Ev.store ("overpass/" ++ "f"), Ev.sub,
         Ev.publish (Msg.chunk 2 "f" "pl")] :=
  C3_no_recheck_amended _ _ _ _ _ _ _ _ rfl (by decide) rfl rfl (by decide)

theorem subCount_process_task (oracle : Nat → OverpassStatus) (t : Task)
    (s : WState) :
    subCount (process_task oracle t s).1
      = (t.chunks.enum.filter fun p => chunkHasOql p.2).length := by
  unfold process_task
  rw [subCount_append, subCount_process_chunks]
  have h2 : subCount [Ev.signalDone t.address] = 0 := rfl
  rw [h2, Nat.add_zero]

theorem subCount_drain (oracle : Nat → OverpassStatus) :
    ∀ (tasks : List Task) (i : Nat) (s : WState),
      (∀ t ∈ tasks, ∀ c ∈ t.chunks, chunkHasOql c = true) →
      subCount ((process_queue oracle tasks i s).1.map Prod.snd)
        = (tasks.map fun t => t.chunks.length).sum
  | [], _, _, _ => by simp [process_queue, subCount]
  | t :: ts, i, s, h => by
    have ht : ∀ c ∈ t.chunks, chunkHasOql c = true :=
      h t (List.mem_cons_self t ts)
    have hts : ∀ u ∈ ts, ∀ c ∈ u.chunks, chunkHasOql c = true :=
      fun u hu => h u (List.mem_cons_of_mem t hu)
    simp only [process_queue, List.map_append, List.map_map, subCount_append]
    have hmap : (Prod.snd ∘ fun e => ((i : Nat), e)) = (id : Ev → Ev) := rfl
    rw [hmap, List.map_id, subCount_process_task]
    have hfil : (t.chunks.enum.filter fun p => chunkHasOql p.2) = t.chunks.enum :=
      List.filter_eq_self.mpr fun p hp =>
        ht p.2 (mem_of_mem_enumFrom 0 t.chunks p hp)
    rw [hfil, List.enum_length,
      subCount_drain oracle ts (i + 1) (process_task oracle t s).2 hts]
    simp [List.sum_cons]

theorem sum_len_cast :
    ∀ ts : List Task,
      (List.map (fun t => ((t.chunks.length : Nat) : Int)) ts).sum
        = (((List.map (fun t => t.chunks.length) ts).sum : Nat) : Int)
  | [] => by simp
  | t :: ts => by
    simp only [List.map_cons, List.sum_cons, Nat.cast_add, sum_len_cast ts]

/-- C4.  Counterexample to the claim as stated.  One task with one chunk
whose query text is absent, baseline 0, zero cache hits: after the task is
fully drained the counter holds 1, not the pre-submission baseline,
because the submission added 1 but the skipped chunk was never
decremented. -/
theorem C4_counterexample :
    counter_after_drain 0 (fun _ => OverpassStatus.mk [])
        [Task.mk "p" 1 [Chunk.mk "a" none]] (WState.mk (fun _ => false) 0) = 1 ∧
    counter_after_drain 0 (fun _ => OverpassStatus.mk [])
        [Task.mk "p" 1 [Chunk.mk "a" none]] (WState.mk (fun _ => false) 0) ≠ 0 := by
  refine ⟨by decide, by decide⟩

/-- C4 (amended).  The counter equals enqueued minus decremented, but a
chunk is decremented only when it has nonempty query text; provided every
chunk of every submitted task has nonempty query text, draining N tasks of
any sizes (with or without cache hits) returns the counter to its
pre-submission baseline.  Skipped empty-query chunks are never
decremented, so they raise the counter permanently. -/
theorem C4_counter_baseline_amended (baseline : Int)
    (oracle : Nat → OverpassStatus) (tasks : List Task) (s : WState)
    (h : ∀ t ∈ tasks, ∀ c ∈ t.chunks, chunkHasOql c = true) :
    counter_after_drain baseline oracle tasks s = baseline := by
  unfold counter_after_drain
  rw [subCount_drain oracle tasks 0 s h]
  rw [sum_len_cast tasks]
  ring

/-- C4 witness: the amended statement evaluated on one concrete fully
drained task whose chunks all carry query text. -/
theorem C4_witness :
    counter_after_drain 5 (fun _ => OverpassStatus.mk [])
        [Task.mk "p" 1 [Chunk.mk "a" (some "Q")]] (WState.mk (fun _ => true) 0)
      = 5 :=
  C4_counter_baseline_amended 5 _ _ _ (by decide)

theorem process_queue_fst_ge (oracle : Nat → OverpassStatus) :
    ∀ (tasks : List Task) (i : Nat) (s : WState) (p : Nat × Ev),
      p ∈ (process_queue oracle tasks i s).1 → i ≤ p.1
  | [], _, _, _, h => by simp [process_queue] at h
  | t :: ts, i, s, p, h => by
    simp only [process_queue, List.mem_append] at h
    cases h with
    | inl h =>
      obtain ⟨e, _, he⟩ := List.mem_map.1 h
      rw [← he]
    | inr h =>
      exact Nat.le_of_succ_le
        (process_queue_fst_ge oracle ts (i + 1) (process_task oracle t s).2 p h)

theorem process_queue_pairwise (oracle : Nat → OverpassStatus) :
    ∀ (tasks : List Task) (i : Nat) (s : WState),
      ((process_queue oracle tasks i s).1).Pairwise fun x y => x.1 ≤ y.1
  | [], _, _ => by simp [process_queue]
  | t :: ts, i, s => by
    simp only [process_queue]
    refine List.pairwise_append.mpr
      ⟨?_, process_queue_pairwise oracle ts (i + 1) (process_task oracle t s).2, ?_⟩
    · exact List.pairwise_map.mpr
        (list_pairwise_of_total (fun a b => Nat.le_refl i) _)
    · intro x hx y hy
      obtain ⟨e, _, he⟩ := List.mem_map.1 hx
      rw [← he]
      exact Nat.le_of_succ_le
        (process_queue_fst_ge oracle ts (i + 1) (process_task oracle t s).2 y hy)

/-- C7: the worker drains tasks one at a time in FIFO order, so in the
tagged worker trace every event of an earlier task occurs at a strictly
earlier position than every event of a later task — chunks of different
tasks never interleave. -/
theorem C7_fifo (oracle : Nat → OverpassStatus) (tasks : List Task)
    (s : WState) (p1 p2 i j : Nat) (e1 e2 : Ev)
    (h1 : ((process_queue oracle tasks 0 s).1)[p1]? = some (i, e1))
    (h2 : ((process_queue oracle tasks 0 s).1)[p2]? = some (j, e2))
    (hij : i < j) : p1 < p2 := by
  rcases List.getElem?_eq_some.1 h1 with ⟨hp1, he1⟩
  rcases List.getElem?_eq_some.1 h2 with ⟨hp2, he2⟩
  by_contra hle
  push_neg at hle
  have hpw := process_queue_pairwise oracle tasks 0 s
  rcases Nat.lt_or_ge p2 p1 with hlt | hge
  · have hrel := (List.pairwise_iff_get.1 hpw) ⟨p2, hp2⟩ ⟨p1, hp1⟩ hlt
    simp only [List.get_eq_getElem, he1, he2] at hrel
    omega
  · have heq : p1 = p2 := Nat.le_antisymm hge hle
    subst heq
    rw [he1] at he2
    injection he2 with hfst hsnd
    omega

/-- C7 witness: the FIFO theorem applied to a concrete two-task drain,
positions 0 (an event of task 0) and 3 (an event of task 1). -/
theorem C7_witness :
    ((process_queue (fun _ => OverpassStatus.mk [])
        [Task.mk "p" 1 [Chunk.mk "a" (some "Q1")],
         Task.mk "q" 2 [Chunk.mk "b" (some "Q2")]] 0
        (WState.mk (fun _ => true) 0)).1)[0]? = some (0, Ev.sub) ∧
    ((process_queue (fun _ => OverpassStatus.mk [])
        [Task.mk "p" 1 [Chunk.mk "a" (some "Q1")],
         Task.mk "q" 2 [Chunk.mk "b" (some "Q2")]] 0
        (WState.mk (fun _ => true) 0)).1)[3]? = some (1, Ev.sub) ∧
    (0 : Nat) < 3 :=
  ⟨by decide, by decide,
    C7_fifo (fun _ => OverpassStatus.mk [])
      [Task.mk "p" 1 [Chunk.mk "a" (some "Q1")],
       Task.mk "q" 2 [Chunk.mk "b" (some "Q2")]]
      (WState.mk (fun _ => true) 0) 0 3 0 1 Ev.sub Ev.sub
      (by decide) (by decide) (by decide)⟩

/-- C5.  Counterexample to the claim as stated.  In the draining state a
non-`ack` reply fails the bare `assert`, which is not caught by the
`except BrokenPipeError` handler: the greenlet dies without running
`del sockets[address]`, so the mailbox is NOT deregistered (`deregs = 0`),
contradicting the claim that any non-`ack` reply deregisters it. -/
theorem C5_counterexample :
    handle_drain [some (Msg.chunk 0 "a" "p")] [IOStep.reply "nak"]
      = DrainResult.mk [Frame.payload (Msg.chunk 0 "a" "p")] 0
          (some Crash.assertError) false := by
  decide

/-- C5 (amended).  The mailbox is deregistered at most once per
connection; it is deregistered exactly once precisely on a clean finish or
when a `BrokenPipeError` strikes inside the drain loop (after which the
attempted `done` write on the closed socket kills the handler), while a
non-`ack` reply raises an uncaught `AssertionError` that terminates the
handler with the mailbox still registered. -/
theorem C5_dereg_amended :
    ∀ (inbox : List (Option Msg)) (script : List IOStep),
      (handle_drain inbox script).deregs ≤ 1 ∧
      ((handle_drain inbox script).crash = some Crash.assertError →
        (handle_drain inbox script).deregs = 0) ∧
      ((handle_drain inbox script).deregs = 1 ↔
        (handle_drain inbox script).cleanFinish = true ∨
        (handle_drain inbox script).crash = some Crash.badFd)
  | [], script => by cases script <;> simp [handle_drain]
  | none :: tl, [] => by simp [handle_drain]
  | none :: tl, IOStep.reply s :: rest => by
    by_cases h : s = "ack" <;> simp [handle_drain, h]
  | none :: tl, IOStep.broken :: rest => by simp [handle_drain]
  | some m :: tl, [] => by simp [handle_drain]
  | some m :: tl, IOStep.reply s :: rest => by
    by_cases h : s = "ack"
    · have ih := C5_dereg_amended tl rest
      simpa [handle_drain, h] using ih
    · simp [handle_drain, h]
  | some m :: tl, IOStep.broken :: rest => by simp [handle_drain]

/-- C5 witness: the amended statement evaluated at a concrete non-`ack`
reply, showing no deregistration happened there. -/
theorem C5_witness :
    (handle_drain [some (Msg.status 3)] [IOStep.reply "no"]).deregs = 0 :=
  (C5_dereg_amended [some (Msg.status 3)] [IOStep.reply "no"]).2.1 (by decide)

/-- C6.  Counterexample to the claim as stated.  A JSON submission with
`chunks` but no `place` makes `msg['place']` raise an uncaught `KeyError`:
the handler dies writing NO frames at all — in particular no plain-string
protocol-error frame — although indeed no task is enqueued. -/
theorem C6_counterexample :
    handle_pre 0 0 (FirstRead.msg (InMsg.mk none none (some []))) "ack"
      = PreResult.mk [] none 0 false (some Crash.keyError) := by
  decide

/-- C6 (amended).  A parsed submission missing `place` or `chunks` raises
an uncaught `KeyError` while the task dict is being built: no error frame
(nor any other frame) is written, nothing is enqueued, the counter is not
touched, the mailbox is never registered, and the handler greenlet dies,
dropping the connection without a protocol-error reply. -/
theorem C6_missing_field_amended (address : Addr) (cv : Int) (m : InMsg)
    (reply : String) (hnp : ¬ m.type = some "ping")
    (hmiss : m.place = none ∨ m.chunks = none) :
    handle_pre address cv (FirstRead.msg m) reply
      = PreResult.mk [] none 0 false (some Crash.keyError) := by
  obtain ⟨t, p, c⟩ := m
  simp only at hnp
  rcases hmiss with h | h <;> simp only at h <;> subst h <;>
    simp only [handle_pre, if_neg hnp]

/-- C6 witness: the amended statement evaluated on a concrete submission
with a `place` but no `chunks` field. -/
theorem C6_witness :
    handle_pre 3 7 (FirstRead.msg (InMsg.mk (some "submit") (some "P") none)) "ack"
      = PreResult.mk [] none 0 false (some Crash.keyError) :=
  C6_missing_field_amended 3 7 _ "ack" (by decide) (Or.inr rfl)

theorem process_chunk_no_fetch (oracle : Nat → OverpassStatus) (place : String)
    (num : Nat) (c : Chunk) (s : WState)
    (h : chunkHasOql c = false ∨ s.cache ("overpass/" ++ c.filename) = true) :
    process_chunk oracle place num c s
      = (if chunkHasOql c then
           [Ev.sub, Ev.publish (Msg.chunk num c.filename place)]
         else [], s) := by
  rcases h with h | h
  · simp [process_chunk, h]
  · by_cases hq : chunkHasOql c <;> simp [process_chunk, hq, h]

theorem process_chunks_no_fetch (oracle : Nat → OverpassStatus) (place : String) :
    ∀ (l : List (Nat × Chunk)) (s : WState),
      (∀ p ∈ l, chunkHasOql p.2 = false ∨
        s.cache ("overpass/" ++ p.2.filename) = true) →
      oracleCount (process_chunks oracle place l s).1 = 0 ∧
      runQueryMsgs (publishedMsgs (process_chunks oracle place l s).1) = [] ∧
      (∀ m ∈ publishedMsgs (process_chunks oracle place l s).1,
        isChunkMsg m = true) ∧
      (process_chunks oracle place l s).2 = s
  | [], s, _ => by
    refine ⟨rfl, rfl, ?_, rfl⟩
    intro m hm
    simp [process_chunks, publishedMsgs] at hm
  | (num, c) :: rest, s, h => by
    have hc := h (num, c) (List.mem_cons_self _ _)
    have hrest : ∀ p ∈ rest, chunkHasOql p.2 = false ∨
        s.cache ("overpass/" ++ p.2.filename) = true :=
      fun p hp => h p (List.mem_cons_of_mem _ hp)
    have hpc := process_chunk_no_fetch oracle place num c s hc
    have ih := process_chunks_no_fetch oracle place rest s hrest
    simp only [process_chunks, hpc]
    obtain ⟨ih1, ih2, ih3, ih4⟩ := ih
    by_cases hq : chunkHasOql c
    · simp only [hq, if_pos]
      refine ⟨?_, ?_, ?_, ih4⟩
      · rw [oracleCount_append, ih1]
        rfl
      · rw [publishedMsgs_append, runQueryMsgs_append, ih2]
        rfl
      · intro m hm
        rw [publishedMsgs_append, List.mem_append] at hm
        cases hm with
        | inl hm =>
          simp [publishedMsgs] at hm
          subst hm
          rfl
        | inr hm => exact ih3 m hm
    · simp only [hq]
      simpa using ⟨ih1, ih2, ih3, ih4⟩

theorem getLast?_append_singleton {α : Type} (l : List α) (a : α) :
    (l ++ [a]).getLast? = some a := by
  exact List.getLast?_append_cons l a []

/-- C8: a task all of whose chunk cache keys already exist on disk causes
no oracle call and no `run_query` message; the worker still publishes only
`chunk` completion messages (one per chunk with nonempty query text, in
order) and still signals the task's completion handle at the end. -/
theorem C8_cache_hit_idempotence (oracle : Nat → OverpassStatus) (t : Task)
    (s : WState)
    (h : ∀ c ∈ t.chunks, s.cache ("overpass/" ++ c.filename) = true) :
    oracleCount (process_task oracle t s).1 = 0 ∧
    runQueryMsgs (publishedMsgs (process_task oracle t s).1) = [] ∧
    (∀ m ∈ publishedMsgs (process_task oracle t s).1, isChunkMsg m = true) ∧
    (process_task oracle t s).1.getLast? = some (Ev.signalDone t.address) ∧
    chunkMsgs (publishedMsgs (process_task oracle t s).1)
      = (t.chunks.enum.filter fun p => chunkHasOql p.2).map
          (fun p => Msg.chunk p.1 p.2.filename t.place) := by
  have henum : ∀ p ∈ t.chunks.enum, chunkHasOql p.2 = false ∨
      s.cache ("overpass/" ++ p.2.filename) = true :=
    fun p hp => Or.inr (h p.2 (mem_of_mem_enumFrom 0 t.chunks p hp))
  obtain ⟨h1, h2, h3, _⟩ :=
    process_chunks_no_fetch oracle t.place t.chunks.enum s henum
  have heq : chunkMsgs (publishedMsgs (process_task oracle t s).1)
      = (t.chunks.enum.filter fun p => chunkHasOql p.2).map
          (fun p => Msg.chunk p.1 p.2.filename t.place) := by
    unfold process_task
    rw [publishedMsgs_append, chunkMsgs_append, chunkMsgs_process_chunks]
    have hz : chunkMsgs (publishedMsgs [Ev.signalDone t.address]) = [] := rfl
    rw [hz, List.append_nil]
  refine ⟨?_, ?_, ?_, ?_, heq⟩
  · unfold process_task
    rw [oracleCount_append, h1]
    rfl
  · unfold process_task
    rw [publishedMsgs_append, runQueryMsgs_append, h2]
    rfl
  · unfold process_task
    intro m hm
    rw [publishedMsgs_append, List.mem_append] at hm
    cases hm with
    | inl hm => exact h3 m hm
    | inr hm => simp [publishedMsgs] at hm
  · unfold process_task
    exact getLast?_append_singleton _ _

/-- C8 witness: one concrete fully cached task, evaluated through the
theorem. -/
theorem C8_witness :
    oracleCount (process_task (fun _ => OverpassStatus.mk [3])
        (Task.mk "p" 1 [Chunk.mk "a" (some "Q")]) (WState.mk (fun _ => true) 0)).1
      = 0 ∧
    runQueryMsgs (publishedMsgs (process_task (fun _ => OverpassStatus.mk [3])
        (Task.mk "p" 1 [Chunk.mk "a" (some "Q")])
        (WState.mk (fun _ => true) 0)).1) = [] :=
  ⟨(C8_cache_hit_idempotence (fun _ => OverpassStatus.mk [3])
      (Task.mk "p" 1 [Chunk.mk "a" (some "Q")]) (WState.mk (fun _ => true) 0)
      (fun _ _ => rfl)).1,
   (C8_cache_hit_idempotence (fun _ => OverpassStatus.mk [3])
      (Task.mk "p" 1 [Chunk.mk "a" (some "Q")]) (WState.mk (fun _ => true) 0)
      (fun _ _ => rfl)).2.1⟩

theorem deliver_no_register (a : Addr) :
    ∀ (pre post : List SEv), (∀ e ∈ pre, e ≠ SEv.register a) →
      deliver a (pre ++ post) false = deliver a post false
  | [], _, _ => rfl
  | e :: tl, post, h => by
    have htl : ∀ x ∈ tl, x ≠ SEv.register a :=
      fun x hx => h x (List.mem_cons_of_mem e hx)
    cases e with
    | publish m =>
      simpa [deliver] using deliver_no_register a tl post htl
    | register b =>
      have hb : ¬ a = b := by
        intro hab
        exact h (SEv.register b) (List.mem_cons_self _ _) (by rw [hab])
      have hbeq : (a == b) = false := beq_eq_false_iff_ne.mpr hb
      simpa [deliver, hbeq] using deliver_no_register a tl post htl
    | deregister b =>
      by_cases hab : a = b <;>
        simpa [deliver, hab] using deliver_no_register a tl post htl

/-- C9: a `queue_update` broadcast reaches only the mailboxes registered
in `sockets` at the moment of publication — any prefix of system events
containing no registration of address `a` contributes nothing to `a`'s
mailbox — and the handler registers the submitting client's mailbox only
after the `ack` to the `connected` reply, so without that ack the client
is never registered and receives none of the task's published messages. -/
theorem C9_no_delivery_before_ack (a : Addr) (pre post : List SEv)
    (hpre : ∀ e ∈ pre, e ≠ SEv.register a) (address : Addr) (cv : Int)
    (fr : FirstRead) (reply : String) (hr : ¬ reply = "ack") :
    deliver a (pre ++ post) false = deliver a post false ∧
    (handle_pre address cv fr reply).registered = false := by
  refine ⟨deliver_no_register a pre post hpre, ?_⟩
  cases fr with
  | parseFail => rfl
  | msg m =>
    obtain ⟨t, p, c⟩ := m
    by_cases hp : t = some "ping"
    · simp [handle_pre, hp]
    · cases p <;> cases c <;> simp [handle_pre, hp, hr]

/-- C9 witness: the theorem applied to a concrete event prefix without a
registration of address 9 and a concrete un-acked handler. -/
theorem C9_witness :
    deliver 9 ([SEv.publish (Msg.status 2), SEv.register 5]
        ++ [SEv.publish (Msg.chunk 0 "a" "p")]) false
      = deliver 9 [SEv.publish (Msg.chunk 0 "a" "p")] false ∧
    (handle_pre 9 0 FirstRead.parseFail "nope").registered = false :=
  C9_no_delivery_before_ack 9 [SEv.publish (Msg.status 2), SEv.register 5]
    [SEv.publish (Msg.chunk 0 "a" "p")] (by decide) 9 0
    FirstRead.parseFail "nope" (by decide)

end TaskQueue

namespace Model

theorem update_cons {V : Type} (self : String → Option V) (k0 : String)
    (v0 : V) (rest : List (String × V)) :
    ItemCandidate.update self ((k0, v0) :: rest)
      = ItemCandidate.update
          (if k0 = "osm_id" ∨ k0 = "osm_type" then self
           else fun k => if k = k0 then some v0 else self k) rest := rfl

theorem update_fixed_key {V : Type} (k : String)
    (hk : k = "osm_id" ∨ k = "osm_type") :
    ∀ (cand : List (String × V)) (self : String → Option V),
      ItemCandidate.update self cand k = self k
  | [], _ => rfl
  | (k0, v0) :: rest, self => by
    rw [update_cons, update_fixed_key k hk rest]
    by_cases h0 : k0 = "osm_id" ∨ k0 = "osm_type"
    · rw [if_pos h0]
    · rw [if_neg h0]
      have hne : ¬ k = k0 := by
        intro he
        subst he
        exact h0 hk
      simp [hne]

theorem update_not_mem_key {V : Type} (k : String) :
    ∀ (cand : List (String × V)) (self : String → Option V),
      k ∉ cand.map Prod.fst → ItemCandidate.update self cand k = self k
  | [], _, _ => rfl
  | (k0, v0) :: rest, self, h => by
    have hk0 : ¬ k = k0 := by
      intro he
      exact h (by simp [he])
    have hrest : k ∉ rest.map Prod.fst := fun hm => h (by simp [hm])
    rw [update_cons, update_not_mem_key k rest _ hrest]
    by_cases h0 : k0 = "osm_id" ∨ k0 = "osm_type"
    · rw [if_pos h0]
    · rw [if_neg h0]
      simp [hk0]

theorem update_assigns {V : Type} :
    ∀ (cand : List (String × V)) (self : String → Option V) (k : String)
      (v : V), (cand.map Prod.fst).Nodup → (k, v) ∈ cand →
      ¬ k = "osm_id" → ¬ k = "osm_type" →
      ItemCandidate.update self cand k = some v
  | [], _, _, _, _, hmem, _, _ => absurd hmem (List.not_mem_nil _)
  | (k0, v0) :: rest, self, k, v, hnd, hmem, h1, h2 => by
    rw [List.map_cons] at hnd
    obtain ⟨hnotin, hnd2⟩ := List.nodup_cons.1 hnd
    rcases List.mem_cons.1 hmem with he | hmem2
    · obtain ⟨hek, hev⟩ := Prod.mk.inj he
      subst hek
      subst hev
      have h0 : ¬ (k = "osm_id" ∨ k = "osm_type") := fun h => h.elim h1 h2
      rw [update_cons, if_neg h0, update_not_mem_key k rest _ hnotin]
      simp
    · exact update_assigns rest _ k v hnd2 hmem2 h1 h2

/-- C10: `ItemCandidate.update` assigns onto the object every entry of
the candidate mapping except the keys `osm_id` and `osm_type`, which it
always leaves unchanged. -/
theorem C10_update_skips_osm_ids {V : Type} (self : String → Option V)
    (cand : List (String × V)) (hnd : (cand.map Prod.fst).Nodup) :
    ItemCandidate.update self cand "osm_id" = self "osm_id" ∧
    ItemCandidate.update self cand "osm_type" = self "osm_type" ∧
    ∀ k v, (k, v) ∈ cand → ¬ k = "osm_id" → ¬ k = "osm_type" →
      ItemCandidate.update self cand k = some v :=
  ⟨update_fixed_key "osm_id" (Or.inl rfl) cand self,
   update_fixed_key "osm_type" (Or.inr rfl) cand self,
   fun k v hm h1 h2 => update_assigns cand self k v hnd hm h1 h2⟩

/-- C10 witness: the theorem evaluated on a concrete candidate mapping
holding a `name` entry and an `osm_id` entry. -/
theorem C10_witness :
    ItemCandidate.update (fun _ => (none : Option Nat))
        [("name", 1), ("osm_id", 2)] "name" = some 1 ∧
    ItemCandidate.update (fun _ => (none : Option Nat))
        [("name", 1), ("osm_id", 2)] "osm_id" = none := by
  have h := C10_update_skips_osm_ids (fun _ => (none : Option Nat))
      [("name", 1), ("osm_id", 2)] (by decide)
  exact ⟨h.2.2 "name" 1 (by decide) (by decide) (by decide), h.1⟩

end Model
